import Mathlib

/-!
Shallow embedding of the Tektronix AWG5014 binary waveform/sequence file
codec (`qcodes/instrument_drivers/tektronix/AWG5014.py`): the sample packer
`pack_waveform`, the record encoder `_pack_record`, and the container
assembler `generate_awg_file`, together with proofs of the specification
claims about them.

Bytes are modelled as natural numbers below 256, byte strings as `List ℕ`.
Waveform samples are modelled as rationals; `np.round` is round-half-to-even.
Machine integers are `ℕ`/`ℤ` with explicit reduction modulo `2 ^ w` where the
source casts. The wall-clock timestamp read by `generate_awg_file` is made an
explicit argument (`timetuple`), the only impure input of the source code.
-/

/-! ## Little-endian primitives (`struct.pack` with format characters) -/

/-- The two bytes of `struct.pack` format `<H` (unsigned 16-bit little-endian). -/
def u16le (n : ℕ) : List ℕ := [n % 256, n / 256 % 256]

/-- The four bytes of `struct.pack` format `<I` (unsigned 32-bit little-endian). -/
def u32le (n : ℕ) : List ℕ :=
  [n % 256, n / 256 % 256, n / 65536 % 256, n / 16777216 % 256]

/-- `struct.pack` format `<h`: a signed 16-bit value, two little-endian bytes. -/
def i16le (i : ℤ) : List ℕ := u16le (i % 65536).toNat

/-- `struct.pack` format `<l`: a signed 32-bit value, four little-endian bytes. -/
def i32le (i : ℤ) : List ℕ := u32le (i % 4294967296).toNat

/-- `str.encode('ASCII')`: the code points of the characters of a string. -/
def asciiBytes (s : String) : List ℕ := s.data.map Char.toNat

/-! ## `_pack_record` -/

/-- A record value together with the `dtype` format string the source passes to
`_pack_record`.  Float64 values (`dtype 'd'`) are abstracted to the eight
IEEE-754 bytes that `struct.pack('<d', value)` produces, since the claims never
inspect float payloads. -/
inductive TypedValue
  /-- dtype `'h'`: a signed 16-bit integer. -/
  | int16 (i : ℤ)
  /-- dtype `'l'`: a signed 32-bit integer. -/
  | int32 (i : ℤ)
  /-- dtype `'d'`: a float64, abstracted to its eight packed bytes. -/
  | float64 (bs : List ℕ)
  /-- dtype `'{n}s'` (length above one, last char `s`): `value.encode('ASCII')`. -/
  | asciiStr (s : String)
  /-- dtype `'{n}H'` (including `'8H'`): `n` unsigned 16-bit values. -/
  | u16array (xs : List ℕ)
deriving DecidableEq

/-- The record data bytes `_pack_record` produces for each value/dtype pair. -/
def recordData : TypedValue → List ℕ
  | .int16 i => i16le i
  | .int32 i => i32le i
  | .float64 bs => bs
  | .asciiStr s => asciiBytes s
  | .u16array xs => xs.flatMap u16le

/-- The record layout: `u32 name_size, u32 data_size, name bytes with trailing
NUL, data bytes`, all little-endian; `name_size` counts the trailing NUL. -/
def packRecordBytes (name : String) (data : List ℕ) : List ℕ :=
  u32le (name.length + 1) ++ u32le data.length ++ (asciiBytes name ++ [0]) ++ data

/-- `_pack_record(name, value, dtype)`. -/
def pack_record (name : String) (v : TypedValue) : List ℕ :=
  packRecordBytes name (recordData v)

/-! ## `pack_waveform` -/

/-- `np.round`: round half to even, on rationals. -/
def roundHalfEven (q : ℚ) : ℤ :=
  if q - Int.floor q < 1 / 2 then Int.floor q
  else if 1 / 2 < q - Int.floor q then Int.floor q + 1
  else if Int.floor q % 2 = 0 then Int.floor q else Int.floor q + 1

/-- The integer value `np.round(w*8191) + 8191 + np.round(16384*m1) +
np.round(32768*m2)` computed for one sample before the `np.uint16` cast. -/
def packSampleZ (w a b : ℚ) : ℤ :=
  roundHalfEven (w * 8191) + 8191 + roundHalfEven (16384 * a) +
    roundHalfEven (32768 * b)

/-- One packed sample after the `np.uint16` cast (reduction modulo `2 ^ 16`). -/
def packU16 (w a b : ℚ) : ℕ := (packSampleZ w a b % 65536).toNat

/-- The ways `pack_waveform` raises. -/
inductive PackError
  /-- `Exception: sizes of the waveforms do not match`. -/
  | lengthMismatch
  /-- `ValueError` from builtin `min()` over the empty waveform inside the
  range check `min(wf) < -1 or max(wf) > 1`. -/
  | emptyMinValueError
  /-- `TypeError: Waveform values out of bonds`. -/
  | valueOutOfRange
  /-- `TypeError: Marker 1/2 contains invalid values`. -/
  | invalidMarkerValue
deriving DecidableEq

/-- `pack_waveform(wf, m1, m2)`: validates lengths, waveform range (via
`min`/`max`, which raise on an empty sequence), and that each marker list
holds only zeros and ones (via counting), then packs each sample. -/
def pack_waveform (wf m1 m2 : List ℚ) : Except PackError (List ℕ) :=
  if ¬ (wf.length = m1.length ∧ m1.length = m2.length) then
    .error .lengthMismatch
  else
    match wf.min?, wf.max? with
    | some mn, some mx =>
      if mn < -1 ∨ 1 < mx then .error .valueOutOfRange
      else if ¬ (m1.count 0 + m1.count 1 = m1.length) then
        .error .invalidMarkerValue
      else if ¬ (m2.count 0 + m2.count 1 = m2.length) then
        .error .invalidMarkerValue
      else .ok (List.zipWith3 packU16 wf m1 m2)
    | _, _ => .error .emptyMinValueError

/-! ## Rounding lemmas -/

lemma roundHalfEven_intCast (n : ℤ) : roundHalfEven (n : ℚ) = n := by
  unfold roundHalfEven
  rw [Int.floor_intCast]
  norm_num

lemma roundHalfEven_le {q : ℚ} {n : ℤ} (h : q ≤ (n : ℚ)) : roundHalfEven q ≤ n := by
  unfold roundHalfEven
  have hfl : Int.floor q ≤ n := by
    have := Int.floor_le_floor h
    simpa using this
  split_ifs with h1 h2 h3
  · exact hfl
  · have hq : (Int.floor q : ℚ) + 1 / 2 ≤ q := by linarith
    have : (Int.floor q : ℚ) < (n : ℚ) := by linarith
    have : Int.floor q < n := by exact_mod_cast this
    omega
  · exact hfl
  · have hq : (Int.floor q : ℚ) + 1 / 2 ≤ q := by linarith
    have : (Int.floor q : ℚ) < (n : ℚ) := by linarith
    have : Int.floor q < n := by exact_mod_cast this
    omega

lemma le_roundHalfEven {q : ℚ} {n : ℤ} (h : (n : ℚ) ≤ q) : n ≤ roundHalfEven q := by
  unfold roundHalfEven
  have hfl : n ≤ Int.floor q := Int.le_floor.mpr h
  split_ifs <;> omega

/-! ## Sorting of waveform names

Python's `list.sort()` on strings orders lexicographically by code point.
`lexLe` is that order on character lists; `strLe` lifts it to strings.
`List.insertionSort` is used as the (order-correct, hence extensionally equal
on the distinct keys of a dict) model of `wlist.sort()`. -/

def lexLe : List Char → List Char → Bool
  | [], _ => true
  | _ :: _, [] => false
  | a :: as, b :: bs =>
    if a.toNat < b.toNat then true
    else if b.toNat < a.toNat then false
    else lexLe as bs

/-- Code-point lexicographic order on strings, as used by `wlist.sort()`. -/
def strLe (a b : String) : Prop := lexLe a.data b.data = true

instance strLe.decidableRel : DecidableRel strLe :=
  fun _ _ => inferInstanceAs (Decidable (_ = true))

lemma lexLe_total (a b : List Char) : lexLe a b = true ∨ lexLe b a = true := by
  induction a generalizing b with
  | nil => left; rfl
  | cons x xs ih =>
    cases b with
    | nil => right; rfl
    | cons y ys =>
      by_cases hxy : x.toNat < y.toNat
      · left; simp [lexLe, hxy]
      · by_cases hyx : y.toNat < x.toNat
        · right; simp [lexLe, hyx]
        · rcases ih ys with h | h
          · left; simpa [lexLe, hxy, hyx] using h
          · right; simpa [lexLe, hxy, hyx] using h

lemma lexLe_head_le {x y : Char} {xs ys : List Char}
    (h : lexLe (x :: xs) (y :: ys) = true) : x.toNat ≤ y.toNat := by
  simp only [lexLe] at h
  split_ifs at h with h1 h2 <;> omega

lemma lexLe_tail {x y : Char} {xs ys : List Char} (hxy : x.toNat = y.toNat)
    (h : lexLe (x :: xs) (y :: ys) = true) : lexLe xs ys = true := by
  simp only [lexLe] at h
  split_ifs at h with h1 h2 <;> first | omega | exact h

lemma lexLe_trans {a b c : List Char} (h1 : lexLe a b = true)
    (h2 : lexLe b c = true) : lexLe a c = true := by
  induction a generalizing b c with
  | nil => rfl
  | cons x xs ih =>
    cases b with
    | nil => simp [lexLe] at h1
    | cons y ys =>
      cases c with
      | nil => simp [lexLe] at h2
      | cons z zs =>
        have hxy := lexLe_head_le h1
        have hyz := lexLe_head_le h2
        by_cases hxz : x.toNat < z.toNat
        · simp [lexLe, hxz]
        · have hx : x.toNat = y.toNat := by omega
          have hy : y.toNat = z.toNat := by omega
          have ht := ih (lexLe_tail hx h1) (lexLe_tail hy h2)
          simp [lexLe, hxz, ht, show ¬ z.toNat < x.toNat by omega]

lemma char_eq_of_toNat_eq {a b : Char} (h : a.toNat = b.toNat) : a = b :=
  Char.ext (UInt32.ext h)

lemma lexLe_antisymm {a b : List Char} (h1 : lexLe a b = true)
    (h2 : lexLe b a = true) : a = b := by
  induction a generalizing b with
  | nil =>
    cases b with
    | nil => rfl
    | cons y ys => simp [lexLe] at h2
  | cons x xs ih =>
    cases b with
    | nil => simp [lexLe] at h1
    | cons y ys =>
      have hxy := lexLe_head_le h1
      have hyx := lexLe_head_le h2
      have hx : x = y := char_eq_of_toNat_eq (by omega)
      subst hx
      rw [ih (lexLe_tail rfl h1) (lexLe_tail rfl h2)]

instance strLe.isTotal : IsTotal String strLe :=
  ⟨fun a b => lexLe_total a.data b.data⟩

instance strLe.isTrans : IsTrans String strLe :=
  ⟨fun _ _ _ => lexLe_trans⟩

instance strLe.isAntisymm : IsAntisymm String strLe := by
  constructor
  intro a b h1 h2
  cases a; cases b
  exact congrArg String.mk (lexLe_antisymm h1 h2)

/-! ## `generate_awg_file` -/

/-- `AWG_FILE_FORMAT_HEAD`: the global/head setting whitelist, mapping each
legal record name to its `dtype` format character, in source order. -/
def AWG_FILE_FORMAT_HEAD : List (String × Char) :=
  [("SAMPLING_RATE", 'd'),
   ("REPETITION_RATE", 'd'),
   ("HOLD_REPETITION_RATE", 'h'),
   ("CLOCK_SOURCE", 'h'),
   ("REFERENCE_SOURCE", 'h'),
   ("EXTERNAL_REFERENCE_TYPE", 'h'),
   ("REFERENCE_CLOCK_FREQUENCY_SELECTION", 'h'),
   ("REFERENCE_MULTIPLIER_RATE", 'h'),
   ("DIVIDER_RATE", 'h'),
   ("TRIGGER_SOURCE", 'h'),
   ("INTERNAL_TRIGGER_RATE", 'd'),
   ("TRIGGER_INPUT_IMPEDANCE", 'h'),
   ("TRIGGER_INPUT_SLOPE", 'h'),
   ("TRIGGER_INPUT_POLARITY", 'h'),
   ("TRIGGER_INPUT_THRESHOLD", 'd'),
   ("EVENT_INPUT_IMPEDANCE", 'h'),
   ("EVENT_INPUT_POLARITY", 'h'),
   ("EVENT_INPUT_THRESHOLD", 'd'),
   ("JUMP_TIMING", 'h'),
   ("INTERLEAVE", 'h'),
   ("ZEROING", 'h'),
   ("COUPLING", 'h'),
   ("RUN_MODE", 'h'),
   ("WAIT_VALUE", 'h'),
   ("RUN_STATE", 'h'),
   ("INTERLEAVE_ADJ_PHASE", 'd'),
   ("INTERLEAVE_ADJ_AMPLITUDE", 'd')]

/-- `AWG_FILE_FORMAT_CHANNEL`: the per-channel setting whitelist (names
templated with a trailing `N`), mapping each to its `dtype` format character,
in source order. -/
def AWG_FILE_FORMAT_CHANNEL : List (String × Char) :=
  [("OUTPUT_WAVEFORM_NAME_N", 's'),
   ("CHANNEL_STATE_N", 'h'),
   ("ANALOG_DIRECT_OUTPUT_N", 'h'),
   ("ANALOG_FILTER_N", 'h'),
   ("ANALOG_METHOD_N", 'h'),
   ("ANALOG_AMPLITUDE_N", 'd'),
   ("ANALOG_OFFSET_N", 'd'),
   ("ANALOG_HIGH_N", 'd'),
   ("ANALOG_LOW_N", 'd'),
   ("MARKER1_SKEW_N", 'd'),
   ("MARKER1_METHOD_N", 'h'),
   ("MARKER1_AMPLITUDE_N", 'd'),
   ("MARKER1_OFFSET_N", 'd'),
   ("MARKER1_HIGH_N", 'd'),
   ("MARKER1_LOW_N", 'd'),
   ("MARKER2_SKEW_N", 'd'),
   ("MARKER2_METHOD_N", 'h'),
   ("MARKER2_AMPLITUDE_N", 'd'),
   ("MARKER2_OFFSET_N", 'd'),
   ("MARKER2_HIGH_N", 'd'),
   ("MARKER2_LOW_N", 'd'),
   ("DIGITAL_METHOD_N", 'h'),
   ("DIGITAL_AMPLITUDE_N", 'd'),
   ("DIGITAL_OFFSET_N", 'd'),
   ("DIGITAL_HIGH_N", 'd'),
   ("DIGITAL_LOW_N", 'd'),
   ("EXTERNAL_ADD_N", 'h'),
   ("PHASE_DELAY_INPUT_METHOD_N", 'h'),
   ("PHASE_N", 'd'),
   ("DELAY_IN_TIME_N", 'd'),
   ("DELAY_IN_POINTS_N", 'd'),
   ("CHANNEL_SKEW_N", 'd'),
   ("DC_OUTPUT_LEVEL_N", 'd')]

/-- A caller-supplied configuration value: an integer, a float (abstracted to
its eight IEEE-754 bytes), or a string. -/
inductive CfgVal
  | num (i : ℤ)
  | flt (bs : List ℕ)
  | str (s : String)
deriving DecidableEq

/-- The data bytes `_pack_record` produces for a configuration value packed at
the whitelisted `dtype` character.  `none` models the `struct.error` Python
raises on a value/format mismatch (including `struct.pack('<s', str)`, which
requires a bytes object). -/
def cfgRecordData : Char → CfgVal → Option (List ℕ)
  | 'h', .num i => some (i16le i)
  | 'd', .flt bs => some bs
  | _, _ => none

/-- The head-settings loop of `generate_awg_file`: for each key of
`sequence_cfg`, in iteration order, either a record (key in
`AWG_FILE_FORMAT_HEAD`) or a logged warning and no bytes. -/
def headSettingsBytes : List (String × CfgVal) → Option (List ℕ)
  | [] => some []
  | (k, v) :: rest =>
    match AWG_FILE_FORMAT_HEAD.lookup k with
    | none => headSettingsBytes rest
    | some c => do
      let d ← cfgRecordData c v
      let tail ← headSettingsBytes rest
      return packRecordBytes k d ++ tail

/-- `ch_k = k[:-1] + 'N'`: the last character of the key is replaced by the
channel template letter before the whitelist lookup. -/
def chKey (k : String) : String := String.mk k.data.dropLast ++ "N"

/-- The channel-settings loop of `generate_awg_file`: for each key of
`channel_cfg`, in iteration order, either a record under the original key
(if `chKey k` is whitelisted) or a logged warning and no bytes. -/
def channelSettingsBytes : List (String × CfgVal) → Option (List ℕ)
  | [] => some []
  | (k, v) :: rest =>
    match AWG_FILE_FORMAT_CHANNEL.lookup (chKey k) with
    | none => channelSettingsBytes rest
    | some c => do
      let d ← cfgRecordData c v
      let tail ← channelSettingsBytes rest
      return packRecordBytes k d ++ tail

/-- `wlist = list(packed_waveforms.keys()); wlist.sort()`. -/
def sortedKeys (pw : List (String × List ℕ)) : List String :=
  List.insertionSort strLe (pw.map Prod.fst)

/-- The five records `generate_awg_file` writes for the waveform named `wf`
with packed samples `wfdat` at running index `ii`: name (with a trailing NUL
appended to the value), type (constant 1), length, timestamp (the eight
`timetuple[:-1]` fields), data. -/
def wfRecords (tt8 : List ℕ) (ii : ℕ) (wf : String) (wfdat : List ℕ) : List ℕ :=
  pack_record ("WAVEFORM_NAME_" ++ toString ii) (.asciiStr (wf.push (Char.ofNat 0))) ++
  pack_record ("WAVEFORM_TYPE_" ++ toString ii) (.int16 1) ++
  pack_record ("WAVEFORM_LENGTH_" ++ toString ii) (.int32 wfdat.length) ++
  pack_record ("WAVEFORM_TIMESTAMP_" ++ toString ii) (.u16array tt8) ++
  pack_record ("WAVEFORM_DATA_" ++ toString ii) (.u16array wfdat)

/-- The waveform block: one `wfRecords` group per waveform, iterated over the
sorted name list with `ii` starting at 21, values looked up in the mapping. -/
def wfBlock (tt8 : List ℕ) (pw : List (String × List ℕ)) : List ℕ :=
  (sortedKeys pw).enum.flatMap fun p =>
    wfRecords tt8 (21 + p.1) p.2 ((pw.lookup p.2).getD [])

/-- The string of the last character of `s` (`wfname[-1]`, the channel id). -/
def lastCharStr (s : String) : String := String.mk (s.data.drop (s.data.length - 1))

/-- The records for sequence element `kk`: the four scalar records (wait,
loop, jump, goto) and one name record per channel with a waveform assigned. -/
def seqElemRecords (kk : ℕ) (wait nrepv jump goto : ℤ)
    (segment : List (Option String)) : List ℕ :=
  pack_record ("SEQUENCE_WAIT_" ++ toString kk) (.int16 wait) ++
  pack_record ("SEQUENCE_LOOP_" ++ toString kk) (.int32 nrepv) ++
  pack_record ("SEQUENCE_JUMP_" ++ toString kk) (.int16 jump) ++
  pack_record ("SEQUENCE_GOTO_" ++ toString kk) (.int16 goto) ++
  segment.flatMap fun w =>
    match w with
    | none => []
    | some wfname =>
      pack_record ("SEQUENCE_WAVEFORM_NAME_CH_" ++ lastCharStr wfname
        ++ "_" ++ toString kk) (.asciiStr (wfname.push (Char.ofNat 0)))

/-- The sequence block: elements taken from the columns of `wfname_l`
(`wfname_l.transpose()`), numbered from 1; the per-element scalars are read by
position from the four lists. -/
def seqBlock (wfname_l : List (List (Option String)))
    (nrep trig_wait goto_state jump_to : List ℤ) : List ℕ :=
  wfname_l.transpose.enum.flatMap fun p =>
    seqElemRecords (p.1 + 1) (trig_wait.getD p.1 0) (nrep.getD p.1 0)
      (jump_to.getD p.1 0) (goto_state.getD p.1 0) p.2

/-- `generate_awg_file` with `preservechannelsettings=False` and an explicit
`sequence_cfg` (the `None` default queries the instrument, outside this core).
The wall-clock `timetuple` (nine fields; the code uses `timetuple[:-1]`) is an
explicit argument.  The result is the concatenation
head block - channel block - waveform block - sequence block; `none` models an
encode abort (a `struct.error` while packing a whitelisted setting). -/
def generate_awg_file (packed_waveforms : List (String × List ℕ))
    (wfname_l : List (List (Option String)))
    (nrep trig_wait goto_state jump_to : List ℤ)
    (channel_cfg : List (String × CfgVal))
    (sequence_cfg : List (String × CfgVal))
    (timetuple : List ℕ) : Option (List ℕ) := do
  let head ← headSettingsBytes sequence_cfg
  let ch ← channelSettingsBytes channel_cfg
  return pack_record "MAGIC" (.int16 5000) ++ pack_record "VERSION" (.int16 1) ++
    head ++ ch ++ wfBlock timetuple.dropLast packed_waveforms ++
    seqBlock wfname_l nrep trig_wait goto_state jump_to

/-! ## A record parser, used to observe record boundaries in a byte buffer -/

/-- The value of a little-endian byte list. -/
def leVal : List ℕ → ℕ
  | [] => 0
  | b :: bs => b % 256 + 256 * leVal bs

/-- The number of complete size-prefixed records at the head of a buffer:
read the two `u32` size fields, skip one record, repeat. -/
def countRecords (bs : List ℕ) : ℕ :=
  if h : 8 ≤ bs.length then
    countRecords (bs.drop (8 + leVal (bs.take 4) + leVal ((bs.drop 4).take 4))) + 1
  else 0
termination_by bs.length
decreasing_by simp only [List.length_drop]; omega

/-! ## Supporting lemmas for record framing -/

lemma asciiBytes_length (s : String) : (asciiBytes s).length = s.length := by
  rw [asciiBytes, List.length_map]
  rfl

lemma u32le_length (n : ℕ) : (u32le n).length = 4 := rfl

lemma packRecordBytes_length (name : String) (data : List ℕ) :
    (packRecordBytes name data).length = 8 + name.length + 1 + data.length := by
  simp only [packRecordBytes, List.length_append, u32le_length,
    asciiBytes_length, List.length_cons, List.length_nil]
  omega

/-! ## Supporting lemmas for quantization -/

lemma roundHalfEven_zero : roundHalfEven 0 = 0 := by
  simpa using roundHalfEven_intCast 0

lemma roundHalfEven_8191 : roundHalfEven (8191 : ℚ) = 8191 := by
  rw [show (8191 : ℚ) = ((8191 : ℤ) : ℚ) by norm_num, roundHalfEven_intCast]

lemma roundHalfEven_neg8191 : roundHalfEven (-8191 : ℚ) = -8191 := by
  rw [show (-8191 : ℚ) = ((-8191 : ℤ) : ℚ) by norm_num, roundHalfEven_intCast]

lemma roundHalfEven_16384 : roundHalfEven (16384 : ℚ) = 16384 := by
  rw [show (16384 : ℚ) = ((16384 : ℤ) : ℚ) by norm_num, roundHalfEven_intCast]

lemma roundHalfEven_32768 : roundHalfEven (32768 : ℚ) = 32768 := by
  rw [show (32768 : ℚ) = ((32768 : ℤ) : ℚ) by norm_num, roundHalfEven_intCast]

lemma roundHalfEven_wf_bounds {w : ℚ} (h1 : -1 ≤ w) (h2 : w ≤ 1) :
    -8191 ≤ roundHalfEven (w * 8191) ∧ roundHalfEven (w * 8191) ≤ 8191 :=
  ⟨le_roundHalfEven (by push_cast; linarith),
   roundHalfEven_le (by push_cast; linarith)⟩

lemma roundHalfEven_marker {a : ℚ} (ha : a = 0 ∨ a = 1) (k : ℚ) (kz : ℤ)
    (hk : k = (kz : ℚ)) :
    roundHalfEven (k * a) = if a = 1 then kz else 0 := by
  rcases ha with rfl | rfl
  · simp [roundHalfEven_zero]
  · simp [hk, roundHalfEven_intCast]

/-- Decomposition of one packed sample for in-range inputs: a quantized base
`c ≤ 16382` plus the marker contributions at bits 14 and 15. -/
lemma packU16_cases {w a b : ℚ} (h1 : -1 ≤ w) (h2 : w ≤ 1)
    (ha : a = 0 ∨ a = 1) (hb : b = 0 ∨ b = 1) :
    ∃ c : ℕ, c ≤ 16382 ∧ (c : ℤ) = roundHalfEven (w * 8191) + 8191 ∧
      packU16 w a b =
        c + (if a = 1 then 16384 else 0) + (if b = 1 then 32768 else 0) ∧
      (packU16 w a b : ℤ) = packSampleZ w a b := by
  obtain ⟨hlo, hhi⟩ := roundHalfEven_wf_bounds h1 h2
  have hA : roundHalfEven (16384 * a) = if a = 1 then (16384 : ℤ) else 0 :=
    roundHalfEven_marker ha 16384 16384 (by norm_num)
  have hB : roundHalfEven (32768 * b) = if b = 1 then (32768 : ℤ) else 0 :=
    roundHalfEven_marker hb 32768 32768 (by norm_num)
  have hS : packSampleZ w a b =
      roundHalfEven (w * 8191) + 8191 + (if a = 1 then (16384 : ℤ) else 0) +
        (if b = 1 then (32768 : ℤ) else 0) := by
    rw [packSampleZ, hA, hB]
  refine ⟨(roundHalfEven (w * 8191) + 8191).toNat, by omega, by omega, ?_, ?_⟩ <;>
    rw [packU16, hS] <;>
    rcases ha with rfl | rfl <;> rcases hb with rfl | rfl <;> norm_num <;> omega

/-! ## Evaluation of `pack_waveform` on singletons -/

lemma count01_singleton {x : ℚ} (hx : x = 0 ∨ x = 1) :
    List.count 0 [x] + List.count 1 [x] = 1 := by
  rcases hx with rfl | rfl <;> norm_num [List.count_cons, beq_iff_eq]

lemma pack_waveform_singleton (w a b : ℚ) (hr : ¬ (w < -1 ∨ 1 < w))
    (hma : a = 0 ∨ a = 1) (hmb : b = 0 ∨ b = 1) :
    pack_waveform [w] [a] [b] = .ok [packU16 w a b] := by
  have hca := count01_singleton hma
  have hcb := count01_singleton hmb
  simp only [pack_waveform, List.length_cons, List.length_nil, List.min?,
    List.max?, List.foldl]
  norm_num [hr, hca, hcb]
  rfl

/-! ## Concrete packed samples -/

lemma packU16_zero : packU16 0 0 0 = 8191 := by
  have e : packSampleZ 0 0 0 = 8191 := by
    rw [packSampleZ]
    norm_num [roundHalfEven_zero]
  rw [packU16, e]
  decide

lemma packU16_one : packU16 1 1 0 = 32766 := by
  have e : packSampleZ 1 1 0 = 32766 := by
    rw [packSampleZ]
    norm_num [roundHalfEven_zero, roundHalfEven_8191, roundHalfEven_16384]
  rw [packU16, e]
  decide

lemma packU16_negOne : packU16 (-1) 0 1 = 32768 := by
  have e : packSampleZ (-1) 0 1 = 32768 := by
    rw [packSampleZ]
    norm_num [roundHalfEven_zero, roundHalfEven_neg8191, roundHalfEven_32768]
  rw [packU16, e]
  decide

/-- C1: for a waveform sample in `[-1, 1]` and markers in `{0, 1}`, the packed
16-bit sample equals `round(w*8191) + 8191 + round(16384*m1) + round(32768*m2)`
(the `uint16` cast is the identity there), and the three concrete examples
`pack([0],[0],[0]) = [8191]`, `pack([1],[1],[0]) = [32766]`,
`pack([-1],[0],[1]) = [32768]` hold. -/
theorem C1_quantization (w a b : ℚ) (hw1 : -1 ≤ w) (hw2 : w ≤ 1)
    (ha : a = 0 ∨ a = 1) (hb : b = 0 ∨ b = 1) :
    (packU16 w a b : ℤ) =
      roundHalfEven (w * 8191) + 8191 + roundHalfEven (16384 * a) +
        roundHalfEven (32768 * b) ∧
    pack_waveform [0] [0] [0] = .ok [8191] ∧
    pack_waveform [1] [1] [0] = .ok [32766] ∧
    pack_waveform [-1] [0] [1] = .ok [32768] := by
  obtain ⟨c, _, _, _, hc4⟩ := packU16_cases hw1 hw2 ha hb
  refine ⟨by simpa [packSampleZ] using hc4, ?_, ?_, ?_⟩
  · rw [pack_waveform_singleton 0 0 0 (by norm_num) (Or.inl rfl) (Or.inl rfl),
      packU16_zero]
  · rw [pack_waveform_singleton 1 1 0 (by norm_num) (Or.inr rfl) (Or.inl rfl),
      packU16_one]
  · rw [pack_waveform_singleton (-1) 0 1 (by norm_num) (Or.inl rfl) (Or.inr rfl),
      packU16_negOne]

/-- Witness for C1 at `w = 0`, `m1 = m2 = 0`. -/
theorem C1_quantization_witness : pack_waveform [0] [0] [0] = .ok [8191] :=
  (C1_quantization 0 0 0 (by norm_num) (by norm_num) (Or.inl rfl)
    (Or.inl rfl)).2.1

/-- C2: a record is the little-endian `u32` size of the NUL-terminated name,
the little-endian `u32` size of the data, the name bytes with trailing NUL,
then the data bytes; its total length is `8 + len(name) + 1 + len(data)`; and
`_pack_record("VERSION", 1, 'h')` is the exact 18-byte sequence
`08 00 00 00 02 00 00 00 56 45 52 53 49 4F 4E 00 01 00`. -/
theorem C2_record_framing (name : String) (v : TypedValue) :
    pack_record name v =
      u32le (name.length + 1) ++ u32le (recordData v).length ++
        (asciiBytes name ++ [0]) ++ recordData v ∧
    (pack_record name v).length = 8 + name.length + 1 + (recordData v).length ∧
    pack_record "VERSION" (.int16 1) =
      [0x08, 0, 0, 0, 0x02, 0, 0, 0, 0x56, 0x45, 0x52, 0x53, 0x49, 0x4F,
        0x4E, 0x00, 0x01, 0x00] :=
  ⟨rfl, packRecordBytes_length name (recordData v), by decide⟩

/-- C3: the marker bits of a packed sample are exactly bits 14 and 15, for
every in-range waveform value, and the packed sample fits in 16 bits. -/
theorem C3_marker_bits (w a b : ℚ) (hw1 : -1 ≤ w) (hw2 : w ≤ 1)
    (ha : a = 0 ∨ a = 1) (hb : b = 0 ∨ b = 1) :
    (packU16 w a b >>> 14) &&& 1 = (if a = 1 then 1 else 0) ∧
    (packU16 w a b >>> 15) &&& 1 = (if b = 1 then 1 else 0) ∧
    packU16 w a b ≤ 65535 := by
  obtain ⟨c, hc1, _, hc3, _⟩ := packU16_cases hw1 hw2 ha hb
  rw [hc3, Nat.shiftRight_eq_div_pow, Nat.shiftRight_eq_div_pow,
    Nat.and_one_is_mod, Nat.and_one_is_mod]
  rcases ha with rfl | rfl <;> rcases hb with rfl | rfl <;> norm_num <;> omega

/-- Witness for C3 at `w = 0`, `m1 = 1`, `m2 = 0`. -/
theorem C3_marker_bits_witness :
    (packU16 0 1 0 >>> 14) &&& 1 = (if (1 : ℚ) = 1 then 1 else 0) :=
  (C3_marker_bits 0 1 0 (by norm_num) (by norm_num) (Or.inr rfl)
    (Or.inl rfl)).1

/-- C9: `pack_waveform` applied to three empty sequences fails (the builtin
`min()` inside the range check raises `ValueError` on an empty sequence)
rather than returning an empty output. -/
theorem C9_empty_input_raises :
    pack_waveform [] [] [] = .error .emptyMinValueError := rfl

/-- C4 counterexample: the empty input satisfies the three stated
preconditions vacuously, yet `pack_waveform` does not succeed on it, so
"succeeds on every input satisfying all three preconditions" is false. -/
theorem C4_counterexample :
    pack_waveform [] [] [] ≠ .ok (List.zipWith3 packU16 [] [] []) := fun h =>
  Except.noConfusion h

lemma count01_le (t : List ℚ) : t.count 0 + t.count 1 ≤ t.length := by
  induction t with
  | nil => simp
  | cons a t ih =>
    simp only [List.count_cons, List.length_cons, beq_iff_eq]
    rcases eq_or_ne a 0 with rfl | ha0
    · norm_num
      omega
    · rcases eq_or_ne a 1 with rfl | ha1
      · norm_num
        omega
      · rw [if_neg ha0, if_neg ha1]
        omega

/-- The marker validation `count(0) + count(1) == len` holds exactly when
every entry is 0 or 1. -/
lemma count01_iff (m : List ℚ) :
    m.count 0 + m.count 1 = m.length ↔ ∀ x ∈ m, x = 0 ∨ x = 1 := by
  induction m with
  | nil => simp
  | cons a t ih =>
    have hle := count01_le t
    simp only [List.count_cons, List.length_cons, List.mem_cons, beq_iff_eq,
      forall_eq_or_imp]
    constructor
    · intro h
      have hione : t.count 0 + t.count 1 = t.length := by
        rcases eq_or_ne a 0 with rfl | ha0
        · norm_num at h
          omega
        · rcases eq_or_ne a 1 with rfl | ha1
          · norm_num at h
            omega
          · rw [if_neg ha0, if_neg ha1] at h
            omega
      refine ⟨?_, ih.mp hione⟩
      by_contra hc
      push_neg at hc
      rw [if_neg hc.1, if_neg hc.2] at h
      omega
    · rintro ⟨ha, hall⟩
      have ht := ih.mpr hall
      rcases ha with rfl | rfl <;> norm_num <;> omega

/-- `min(wf)` on a nonempty list: a member that bounds every element below. -/
lemma min_facts (w : ℚ) (ws : List ℚ) :
    ws.foldl min w ∈ w :: ws ∧ ∀ b ∈ w :: ws, ws.foldl min w ≤ b := by
  induction ws generalizing w with
  | nil =>
    refine ⟨List.mem_cons_self _ _, ?_⟩
    intro b hb
    rcases List.mem_singleton.mp hb with rfl
    exact le_refl _
  | cons x xs ih =>
    obtain ⟨hmem, hle⟩ := ih (min w x)
    have hg : List.foldl min w (x :: xs) = List.foldl min (min w x) xs := rfl
    rw [hg]
    constructor
    · rcases List.mem_cons.mp hmem with he | hm
      · rw [he]
        rcases min_choice w x with hc | hc <;> rw [hc]
        · exact List.mem_cons_self _ _
        · exact List.mem_cons_of_mem _ (List.mem_cons_self _ _)
      · exact List.mem_cons_of_mem _ (List.mem_cons_of_mem _ hm)
    · intro b hb
      have hhead := hle (min w x) (List.mem_cons_self _ _)
      rcases List.mem_cons.mp hb with rfl | hb
      · exact le_trans hhead (min_le_left _ _)
      · rcases List.mem_cons.mp hb with rfl | hb
        · exact le_trans hhead (min_le_right _ _)
        · exact hle b (List.mem_cons_of_mem _ hb)

/-- `max(wf)` on a nonempty list: a member that bounds every element above. -/
lemma max_facts (w : ℚ) (ws : List ℚ) :
    ws.foldl max w ∈ w :: ws ∧ ∀ b ∈ w :: ws, b ≤ ws.foldl max w := by
  induction ws generalizing w with
  | nil =>
    refine ⟨List.mem_cons_self _ _, ?_⟩
    intro b hb
    rcases List.mem_singleton.mp hb with rfl
    exact le_refl _
  | cons x xs ih =>
    obtain ⟨hmem, hle⟩ := ih (max w x)
    have hg : List.foldl max w (x :: xs) = List.foldl max (max w x) xs := rfl
    rw [hg]
    constructor
    · rcases List.mem_cons.mp hmem with he | hm
      · rw [he]
        rcases max_choice w x with hc | hc <;> rw [hc]
        · exact List.mem_cons_self _ _
        · exact List.mem_cons_of_mem _ (List.mem_cons_self _ _)
      · exact List.mem_cons_of_mem _ (List.mem_cons_of_mem _ hm)
    · intro b hb
      have hhead := hle (max w x) (List.mem_cons_self _ _)
      rcases List.mem_cons.mp hb with rfl | hb
      · exact le_trans (le_max_left _ _) hhead
      · rcases List.mem_cons.mp hb with rfl | hb
        · exact le_trans (le_max_right _ _) hhead
        · exact hle b (List.mem_cons_of_mem _ hb)

/-- C4 (amended): the validation checks are applied in order.  Mismatched
lengths always give LengthMismatch; with equal lengths, an out-of-range
sample gives ValueOutOfRange; with equal lengths and all samples in range, an
invalid marker gives InvalidMarkerValue; and `pack_waveform` succeeds on
every nonempty input satisfying all three preconditions (the empty input
instead raises inside the range check, see the counterexample). -/
theorem C4_error_cases (wf m1 m2 : List ℚ) :
    (¬ (wf.length = m1.length ∧ m1.length = m2.length) →
      pack_waveform wf m1 m2 = .error .lengthMismatch) ∧
    (wf.length = m1.length → m1.length = m2.length →
      (∃ w ∈ wf, w < -1 ∨ 1 < w) →
      pack_waveform wf m1 m2 = .error .valueOutOfRange) ∧
    (wf.length = m1.length → m1.length = m2.length →
      (∀ w ∈ wf, -1 ≤ w ∧ w ≤ 1) →
      ((∃ x ∈ m1, ¬ (x = 0 ∨ x = 1)) ∨ (∃ x ∈ m2, ¬ (x = 0 ∨ x = 1))) →
      pack_waveform wf m1 m2 = .error .invalidMarkerValue) ∧
    (wf.length = m1.length → m1.length = m2.length → wf ≠ [] →
      (∀ w ∈ wf, -1 ≤ w ∧ w ≤ 1) →
      (∀ x ∈ m1, x = 0 ∨ x = 1) → (∀ x ∈ m2, x = 0 ∨ x = 1) →
      pack_waveform wf m1 m2 = .ok (List.zipWith3 packU16 wf m1 m2)) := by
  refine ⟨?_, ?_, ?_, ?_⟩
  · intro h
    unfold pack_waveform
    rw [if_pos h]
  · rintro hl1 hl2 ⟨x, hx, hxr⟩
    obtain ⟨w, ws, rfl⟩ := List.exists_cons_of_ne_nil (List.ne_nil_of_mem hx)
    have hmn := min_facts w ws
    have hmx := max_facts w ws
    have hcond : List.foldl min w ws < -1 ∨ 1 < List.foldl max w ws := by
      rcases hxr with h | h
      · exact Or.inl (lt_of_le_of_lt (hmn.2 x hx) h)
      · exact Or.inr (lt_of_lt_of_le h (hmx.2 x hx))
    simp only [pack_waveform, List.min?, List.max?]
    rw [if_neg (by simp [hl1, hl2]), if_pos hcond]
  · intro hl1 hl2 hrange hmark
    cases wf with
    | nil =>
      exfalso
      have hm1 : m1.length = 0 := by simpa using hl1.symm
      have hm2 : m2.length = 0 := by omega
      have h1 : m1 = [] := List.length_eq_zero.mp hm1
      have h2 : m2 = [] := List.length_eq_zero.mp hm2
      rcases hmark with ⟨x, hx, _⟩ | ⟨x, hx, _⟩ <;> simp [h1, h2] at hx
    | cons w ws =>
      have hmn := min_facts w ws
      have hmx := max_facts w ws
      have hcond : ¬ (List.foldl min w ws < -1 ∨ 1 < List.foldl max w ws) := by
        push_neg
        exact ⟨(hrange _ hmn.1).1, (hrange _ hmx.1).2⟩
      simp only [pack_waveform, List.min?, List.max?]
      rw [if_neg (by simp [hl1, hl2]), if_neg hcond]
      rcases hmark with ⟨x, hx, hxb⟩ | ⟨x, hx, hxb⟩
      · have hcnt : ¬ (m1.count 0 + m1.count 1 = m1.length) := fun hc =>
          hxb ((count01_iff m1).mp hc x hx)
        rw [if_pos hcnt]
      · by_cases hc1 : m1.count 0 + m1.count 1 = m1.length
        · have hcnt2 : ¬ (m2.count 0 + m2.count 1 = m2.length) := fun hc =>
            hxb ((count01_iff m2).mp hc x hx)
          rw [if_neg (not_not_intro hc1), if_pos hcnt2]
        · rw [if_pos hc1]
  · intro hl1 hl2 hne hrange hm1 hm2
    cases wf with
    | nil => exact absurd rfl hne
    | cons w ws =>
      have hmn := min_facts w ws
      have hmx := max_facts w ws
      have hcond : ¬ (List.foldl min w ws < -1 ∨ 1 < List.foldl max w ws) := by
        push_neg
        exact ⟨(hrange _ hmn.1).1, (hrange _ hmx.1).2⟩
      simp only [pack_waveform, List.min?, List.max?]
      rw [if_neg (by simp [hl1, hl2]), if_neg hcond,
        if_neg (not_not_intro ((count01_iff m1).mpr hm1)),
        if_neg (not_not_intro ((count01_iff m2).mpr hm2))]

/-- Witness for C4 at a length-mismatched input. -/
theorem C4_error_cases_witness :
    pack_waveform [0] [] [] = .error .lengthMismatch :=
  (C4_error_cases [0] [] []).1 (by simp)

/-- C7: with the timestamp an explicit input, the encoder is a pure function:
two calls on identical inputs (including the timestamp) produce byte-identical
output. -/
theorem C7_deterministic (pw : List (String × List ℕ))
    (wfname_l : List (List (Option String)))
    (nrep trig_wait goto_state jump_to : List ℤ)
    (channel_cfg sequence_cfg : List (String × CfgVal)) (timetuple : List ℕ) :
    generate_awg_file pw wfname_l nrep trig_wait goto_state jump_to
        channel_cfg sequence_cfg timetuple =
      generate_awg_file pw wfname_l nrep trig_wait goto_state jump_to
        channel_cfg sequence_cfg timetuple := rfl

/-- Dropping a head-settings key the whitelist does not know leaves the head
block unchanged. -/
lemma headSettingsBytes_skip (pre post : List (String × CfgVal)) (k : String)
    (v : CfgVal) (h : AWG_FILE_FORMAT_HEAD.lookup k = none) :
    headSettingsBytes (pre ++ (k, v) :: post) = headSettingsBytes (pre ++ post) := by
  induction pre with
  | nil => simp only [List.nil_append, headSettingsBytes, h]
  | cons a t ih =>
    obtain ⟨ka, va⟩ := a
    simp only [List.cons_append, headSettingsBytes, List.append_eq]
    rw [ih]

/-- Dropping a channel-settings key whose template is not whitelisted leaves
the channel block unchanged. -/
lemma channelSettingsBytes_skip (pre post : List (String × CfgVal)) (k : String)
    (v : CfgVal) (h : AWG_FILE_FORMAT_CHANNEL.lookup (chKey k) = none) :
    channelSettingsBytes (pre ++ (k, v) :: post) =
      channelSettingsBytes (pre ++ post) := by
  induction pre with
  | nil => simp only [List.nil_append, channelSettingsBytes, h]
  | cons a t ih =>
    obtain ⟨ka, va⟩ := a
    simp only [List.cons_append, channelSettingsBytes, List.append_eq]
    rw [ih]

/-- C8: a head-settings key absent from the head whitelist and a
channel-settings key whose `N`-template is absent from the channel whitelist
are both dropped (with a warning), never failing the encode, and the records
of the remaining keys are unaffected: the container is byte-identical to the
one encoded without the unrecognized keys. -/
theorem C8_unrecognized_keys_dropped (pw : List (String × List ℕ))
    (wfl : List (List (Option String))) (nrep tw gs jt : List ℤ)
    (cpre cpost hpre hpost : List (String × CfgVal)) (tt : List ℕ)
    (hk ck : String) (hv cv : CfgVal)
    (hh : AWG_FILE_FORMAT_HEAD.lookup hk = none)
    (hc : AWG_FILE_FORMAT_CHANNEL.lookup (chKey ck) = none) :
    generate_awg_file pw wfl nrep tw gs jt (cpre ++ (ck, cv) :: cpost)
        (hpre ++ (hk, hv) :: hpost) tt =
      generate_awg_file pw wfl nrep tw gs jt (cpre ++ cpost)
        (hpre ++ hpost) tt := by
  unfold generate_awg_file
  rw [headSettingsBytes_skip _ _ _ _ hh, channelSettingsBytes_skip _ _ _ _ hc]

/-- Witness for C8: one unrecognized head key and one unrecognized channel
key, dropped from an otherwise empty container. -/
theorem C8_unrecognized_keys_dropped_witness :
    generate_awg_file [] [] [] [] [] []
        ([] ++ ("ANALOG_AMPLITUDE_12", CfgVal.flt []) :: [])
        ([] ++ ("NOT_A_SETTING", CfgVal.num 0) :: []) [] =
      generate_awg_file [] [] [] [] [] [] ([] ++ []) ([] ++ []) [] :=
  C8_unrecognized_keys_dropped [] [] [] [] [] [] [] [] [] [] []
    "NOT_A_SETTING" "ANALOG_AMPLITUDE_12" (.num 0) (.flt [])
    (by decide) (by decide)

/-- C10: a channel-settings key contributes a record exactly when the key with
its final character replaced by `N` is in the per-channel whitelist; in
particular `ANALOG_AMPLITUDE_12` maps to `ANALOG_AMPLITUDE_1N` and is skipped,
while `ANALOG_AMPLITUDE_` followed by any single character maps to the
whitelisted `ANALOG_AMPLITUDE_N` and is accepted. -/
theorem C10_channel_key_transform (k : String) (v : CfgVal)
    (rest : List (String × CfgVal)) :
    (AWG_FILE_FORMAT_CHANNEL.lookup (chKey k) = none →
      channelSettingsBytes ((k, v) :: rest) = channelSettingsBytes rest) ∧
    (∀ c, AWG_FILE_FORMAT_CHANNEL.lookup (chKey k) = some c →
      channelSettingsBytes ((k, v) :: rest) = do
        let d ← cfgRecordData c v
        let tail ← channelSettingsBytes rest
        return packRecordBytes k d ++ tail) ∧
    chKey "ANALOG_AMPLITUDE_12" = "ANALOG_AMPLITUDE_1N" ∧
    AWG_FILE_FORMAT_CHANNEL.lookup "ANALOG_AMPLITUDE_1N" = none ∧
    (∀ c : Char, chKey ("ANALOG_AMPLITUDE_".push c) = "ANALOG_AMPLITUDE_N") ∧
    AWG_FILE_FORMAT_CHANNEL.lookup "ANALOG_AMPLITUDE_N" = some 'd' := by
  refine ⟨?_, ?_, by decide, by decide, ?_, by decide⟩
  · intro h
    simp only [channelSettingsBytes, h]
  · intro c h
    simp only [channelSettingsBytes, h]
  · intro c
    unfold chKey
    rw [show ("ANALOG_AMPLITUDE_".push c).data =
      "ANALOG_AMPLITUDE_".data ++ [c] from rfl, List.dropLast_concat]
    rfl

/-- Witness for C10: the over-long channel index `12` is skipped. -/
theorem C10_channel_key_transform_witness :
    channelSettingsBytes [("ANALOG_AMPLITUDE_12", CfgVal.flt [])] =
      channelSettingsBytes [] :=
  (C10_channel_key_transform "ANALOG_AMPLITUDE_12" (CfgVal.flt []) []).1
    (by decide)

/-! ## Waveform ordering (C5) -/

/-- Association-list lookup is stable under permutation when keys are
distinct (the dict model: iteration order varies, key-value binding does
not). -/
lemma lookup_eq_of_perm {β : Type _} {l l2 : List (String × β)} (h : l.Perm l2) :
    (l.map Prod.fst).Nodup → ∀ k, l.lookup k = l2.lookup k := by
  induction h with
  | nil => intro _ k; rfl
  | cons x h ih =>
    intro hnd k
    obtain ⟨kx, vx⟩ := x
    have hnd2 : (List.map Prod.fst _).Nodup :=
      (List.nodup_cons.mp (by simpa using hnd)).2
    cases hbk : (k == kx) with
    | true => simp only [List.lookup_cons, hbk]
    | false =>
      simp only [List.lookup_cons, hbk]
      exact ih hnd2 k
  | swap x y l =>
    intro hnd k
    obtain ⟨kx, vx⟩ := x
    obtain ⟨ky, vy⟩ := y
    have hne : ky ≠ kx := by
      simp only [List.map_cons, List.nodup_cons, List.mem_cons] at hnd
      exact fun hk => hnd.1 (Or.inl hk)
    cases hbx : (k == kx) <;> cases hby : (k == ky) <;>
      simp only [List.lookup_cons, hbx, hby]
    exact absurd ((beq_iff_eq.mp hby).symm.trans (beq_iff_eq.mp hbx)) hne
  | trans h1 h2 ih1 ih2 =>
    intro hnd k
    exact (ih1 hnd k).trans (ih2 ((h1.map Prod.fst).nodup_iff.mp hnd) k)

/-- Sorting is a function of the multiset of names: permuted inputs sort to
the same list. -/
lemma insertionSort_eq_of_perm {l l2 : List String} (h : l.Perm l2) :
    List.insertionSort strLe l = List.insertionSort strLe l2 :=
  List.eq_of_perm_of_sorted
    ((List.perm_insertionSort strLe l).trans
      (h.trans (List.perm_insertionSort strLe l2).symm))
    (List.sorted_insertionSort strLe l)
    (List.sorted_insertionSort strLe l2)

/-- C5: the waveform block is emitted in sorted-by-name order, independent of
the mapping's iteration order (two permuted mappings with the same distinct
keys encode to the same container), and with waveforms named b, a, c (in that
insertion order) the record groups appear in order a, b, c. -/
theorem C5_waveform_ordering (tt8 : List ℕ) (pw pw2 : List (String × List ℕ))
    (hperm : pw.Perm pw2) (hnd : (pw.map Prod.fst).Nodup)
    (da db dc : List ℕ) (wfl : List (List (Option String)))
    (nrep tw gs jt : List ℤ) (ccfg scfg : List (String × CfgVal))
    (tt : List ℕ) :
    wfBlock tt8 pw = wfBlock tt8 pw2 ∧
    generate_awg_file pw wfl nrep tw gs jt ccfg scfg tt =
      generate_awg_file pw2 wfl nrep tw gs jt ccfg scfg tt ∧
    wfBlock tt8 [("b", db), ("a", da), ("c", dc)] =
      wfRecords tt8 21 "a" da ++ wfRecords tt8 22 "b" db ++
        wfRecords tt8 23 "c" dc := by
  have hwf : ∀ t8, wfBlock t8 pw = wfBlock t8 pw2 := by
    intro t8
    have hl : ∀ q, pw.lookup q = pw2.lookup q := lookup_eq_of_perm hperm hnd
    unfold wfBlock sortedKeys
    rw [insertionSort_eq_of_perm (hperm.map Prod.fst)]
    congr 1
    funext p
    rw [hl]
  refine ⟨hwf tt8, ?_, ?_⟩
  · unfold generate_awg_file
    rw [hwf tt.dropLast]
  · have hs : sortedKeys [("b", db), ("a", da), ("c", dc)] = ["a", "b", "c"] := by
      unfold sortedKeys
      simp only [List.map_cons, List.map_nil]
      decide
    have he : (["a", "b", "c"] : List String).enum =
        [(0, "a"), (1, "b"), (2, "c")] := rfl
    have la : ([("b", db), ("a", da), ("c", dc)] :
        List (String × List ℕ)).lookup "a" = some da := rfl
    have lb : ([("b", db), ("a", da), ("c", dc)] :
        List (String × List ℕ)).lookup "b" = some db := rfl
    have lc : ([("b", db), ("a", da), ("c", dc)] :
        List (String × List ℕ)).lookup "c" = some dc := rfl
    unfold wfBlock
    rw [hs, he]
    simp only [List.flatMap_cons, List.flatMap_nil, List.append_nil,
      List.append_assoc, la, lb, lc, Option.getD_some]

/-- Witness for C5: two iteration orders of the same two-waveform mapping
produce the same block. -/
theorem C5_waveform_ordering_witness :
    wfBlock [0, 0, 0, 0, 0, 0, 0, 0] [("b", [1]), ("a", [2])] =
      wfBlock [0, 0, 0, 0, 0, 0, 0, 0] [("a", [2]), ("b", [1])] :=
  (C5_waveform_ordering [0, 0, 0, 0, 0, 0, 0, 0] [("b", [1]), ("a", [2])]
    [("a", [2]), ("b", [1])] (by decide) (by decide) [] [] [] [] [] [] [] []
    [] [] []).1

/-! ## Counting records in a buffer (C6) -/

lemma asciiBytes_push (s : String) (c : Char) :
    asciiBytes (s.push c) = asciiBytes s ++ [c.toNat] := by
  rw [asciiBytes, show (s.push c).data = s.data ++ [c] from rfl,
    List.map_append]
  rfl

lemma length_flatMap_u16le (xs : List ℕ) :
    (xs.flatMap u16le).length = 2 * xs.length := by
  induction xs with
  | nil => rfl
  | cons x t ih =>
    simp only [List.flatMap_cons, List.length_append, ih, List.length_cons]
    have h2 : (u16le x).length = 2 := rfl
    omega

lemma leVal_u32le (n : ℕ) (h : n < 4294967296) : leVal (u32le n) = n := by
  simp [leVal, u32le]
  omega

lemma countRecords_nil : countRecords [] = 0 := by
  rw [countRecords.eq_def]
  simp

/-- One complete record at the head of a buffer is walked over by the record
counter: the two `u32` size fields locate its end exactly. -/
lemma countRecords_record (name : String) (data rest : List ℕ)
    (hn : name.length + 1 < 4294967296) (hd : data.length < 4294967296) :
    countRecords (packRecordBytes name data ++ rest) = countRecords rest + 1 := by
  have hlen := packRecordBytes_length name data
  have hc : 8 ≤ (packRecordBytes name data ++ rest).length := by
    rw [List.length_append, hlen]
    omega
  have ht1 : (packRecordBytes name data ++ rest).take 4 =
      u32le (name.length + 1) := rfl
  have ht2 : ((packRecordBytes name data ++ rest).drop 4).take 4 =
      u32le data.length := rfl
  have hdrop : (packRecordBytes name data ++ rest).drop
      (8 + (name.length + 1) + data.length) = rest := by
    have h2 : 8 + (name.length + 1) + data.length =
        (packRecordBytes name data).length := by
      rw [hlen]
      omega
    rw [h2, List.drop_left]
  rw [countRecords.eq_def, dif_pos hc, ht1, ht2, leVal_u32le _ hn,
    leVal_u32le _ hd, hdrop]

lemma countRecords_single (name : String) (data : List ℕ)
    (hn : name.length + 1 < 4294967296) (hd : data.length < 4294967296) :
    countRecords (packRecordBytes name data) = 1 := by
  have h := countRecords_record name data [] hn hd
  rw [List.append_nil] at h
  rw [h, countRecords_nil]

/-- The five records written per waveform, exposed at the byte level. -/
lemma wfRecords_decomp (tt8 : List ℕ) (ii : ℕ) (wf : String) (dat : List ℕ) :
    wfRecords tt8 ii wf dat =
      packRecordBytes ("WAVEFORM_NAME_" ++ toString ii) (asciiBytes wf ++ [0]) ++
      (packRecordBytes ("WAVEFORM_TYPE_" ++ toString ii) (i16le 1) ++
      (packRecordBytes ("WAVEFORM_LENGTH_" ++ toString ii) (i32le dat.length) ++
      (packRecordBytes ("WAVEFORM_TIMESTAMP_" ++ toString ii) (tt8.flatMap u16le) ++
      packRecordBytes ("WAVEFORM_DATA_" ++ toString ii) (dat.flatMap u16le)))) := by
  have hz : (Char.ofNat 0).toNat = 0 := rfl
  simp only [wfRecords, pack_record, recordData, asciiBytes_push, hz,
    List.append_assoc]

/-- Each waveform contributes exactly five complete records. -/
lemma countRecords_wfRecords (tt8 : List ℕ) (ii : ℕ) (wf : String)
    (dat : List ℕ) (hii : (toString ii).length < 100)
    (hw : wf.length < 1000000) (hd : dat.length < 1000000)
    (htt : tt8.length = 8) :
    countRecords (wfRecords tt8 ii wf dat) = 5 := by
  have hname : ∀ s : String, s.length < 50 →
      (s ++ toString ii).length + 1 < 4294967296 := by
    intro s hs
    rw [String.length_append]
    omega
  have hn1 := hname "WAVEFORM_NAME_" (by decide)
  have hn2 := hname "WAVEFORM_TYPE_" (by decide)
  have hn3 := hname "WAVEFORM_LENGTH_" (by decide)
  have hn4 := hname "WAVEFORM_TIMESTAMP_" (by decide)
  have hn5 := hname "WAVEFORM_DATA_" (by decide)
  have hd1 : (asciiBytes wf ++ [0]).length < 4294967296 := by
    rw [List.length_append, asciiBytes_length]
    norm_num
    omega
  have hd2 : (i16le 1).length < 4294967296 := by decide
  have hd3 : (i32le (dat.length : ℤ)).length < 4294967296 := by
    have h4 : (i32le (dat.length : ℤ)).length = 4 := rfl
    omega
  have hd4 : (tt8.flatMap u16le).length < 4294967296 := by
    rw [length_flatMap_u16le, htt]
    norm_num
  have hd5 : (dat.flatMap u16le).length < 4294967296 := by
    rw [length_flatMap_u16le]
    omega
  rw [wfRecords_decomp, countRecords_record _ _ _ hn1 hd1,
    countRecords_record _ _ _ hn2 hd2, countRecords_record _ _ _ hn3 hd3,
    countRecords_record _ _ _ hn4 hd4, countRecords_single _ _ hn5 hd5]

/-- C6 counterexample: a single waveform contributes five records to the
waveform block, not four. -/
theorem C6_counterexample :
    countRecords (wfBlock [1970, 1, 0, 1, 0, 0, 0, 0] [("a", [0])]) = 5 ∧
    countRecords (wfBlock [1970, 1, 0, 1, 0, 0, 0, 0] [("a", [0])]) ≠ 4 := by
  have hb : wfBlock [1970, 1, 0, 1, 0, 0, 0, 0] [("a", [0])] =
      wfRecords [1970, 1, 0, 1, 0, 0, 0, 0] 21 "a" [0] := by
    unfold wfBlock
    have hs : sortedKeys [("a", [0])] = ["a"] := rfl
    have he : (["a"] : List String).enum = [(0, "a")] := rfl
    rw [hs, he]
    simp only [List.flatMap_cons, List.flatMap_nil, List.append_nil]
    rfl
  have h5 : countRecords (wfRecords [1970, 1, 0, 1, 0, 0, 0, 0] 21 "a" [0]) = 5 :=
    countRecords_wfRecords _ _ _ _ (by decide) (by decide) (by decide) rfl
  rw [hb, h5]
  exact ⟨rfl, by omega⟩

/-- C6 (amended): each waveform, taken in sorted-by-name order, contributes
FIVE records in fixed order: name (NUL-terminated value), type tag (constant
integer marker 1), length (sample count), timestamp (the eight date/time
fields), data (the packed u16 samples). -/
theorem C6_waveform_record_group (tt8 : List ℕ) (ii : ℕ) (wf : String)
    (dat : List ℕ) (hii : (toString ii).length < 100)
    (hw : wf.length < 1000000) (hd : dat.length < 1000000)
    (htt : tt8.length = 8) :
    countRecords (wfRecords tt8 ii wf dat) = 5 ∧
    wfRecords tt8 ii wf dat =
      packRecordBytes ("WAVEFORM_NAME_" ++ toString ii) (asciiBytes wf ++ [0]) ++
      (packRecordBytes ("WAVEFORM_TYPE_" ++ toString ii) (i16le 1) ++
      (packRecordBytes ("WAVEFORM_LENGTH_" ++ toString ii) (i32le dat.length) ++
      (packRecordBytes ("WAVEFORM_TIMESTAMP_" ++ toString ii) (tt8.flatMap u16le) ++
      packRecordBytes ("WAVEFORM_DATA_" ++ toString ii) (dat.flatMap u16le)))) :=
  ⟨countRecords_wfRecords tt8 ii wf dat hii hw hd htt,
   wfRecords_decomp tt8 ii wf dat⟩

/-- Witness for C6 at the first waveform slot. -/
theorem C6_waveform_record_group_witness :
    countRecords (wfRecords [1970, 1, 0, 1, 0, 0, 0, 0] 21 "a" [0]) = 5 :=
  (C6_waveform_record_group [1970, 1, 0, 1, 0, 0, 0, 0] 21 "a" [0]
    (by decide) (by decide) (by decide) rfl).1
